import Mathlib

/-!
# add-cids-to-bstore: batch planning, bounded fetching and peer bootstrapping

A shallow embedding of `main.go` (package `main`).  Go `int` values are
modelled as `Int`, slices as `List`, run-time panics and non-termination as
explicit results.
-/

namespace AddCids

/-! ## Results of running Go code -/

/-- Result of running a piece of Go code with a step budget: it returns a
value, it panics, or the budget is exhausted before it returns. -/
inductive Run (α : Type) where
  | done (a : α)
  | panicked (msg : String)
  | outOfFuel
  deriving Repr, DecidableEq

/-- Apply a function to the value a run returns. -/
def Run.map {α β : Type} (f : α → β) : Run α → Run β
  | Run.done a => Run.done (f a)
  | Run.panicked msg => Run.panicked msg
  | Run.outOfFuel => Run.outOfFuel

/-! ## `splitIntoBatches` (main.go, lines 252-264) -/

/-- The Go slice expression `xs[lo:hi]` on a slice whose capacity equals its
length: it panics (`none`) unless `0 ≤ lo ≤ hi ≤ len(xs)`. -/
def goSlice {α : Type} (xs : List α) (lo hi : Int) : Option (List α) :=
  if 0 ≤ lo ∧ lo ≤ hi ∧ hi ≤ (xs.length : Int) then
    some ((xs.drop lo.toNat).take (hi.toNat - lo.toNat))
  else none

/-- The `for i := 0; i < len(cids); i += batchSize` loop of
`splitIntoBatches`, started at index `i` with the batches `batches` already
appended.  One unit of fuel is spent per evaluation of the loop condition.

The additions are over the integers.  The loop body only runs with
`i < len(cids)`, and `i` is either `0` or at least `batchSize`, so
`i + batchSize` is bounded by `max batchSize (2 * len(cids))`, which fits an
`int` for every slice that fits in memory: `splitLoop64_eq` below proves that
the loop with 64-bit wrap-around computes the same thing. -/
def splitLoop (cids : List String) (batchSize : Int) :
    Nat → Int → List (List String) → Run (List (List String))
  | 0, _, _ => Run.outOfFuel
  | fuel + 1, i, batches =>
    if i < (cids.length : Int) then
      let end0 := i + batchSize
      let end1 := if end0 > (cids.length : Int) then (cids.length : Int) else end0
      match goSlice cids i end1 with
      | none => Run.panicked "slice bounds out of range"
      | some batch => splitLoop cids batchSize fuel (i + batchSize) (batches ++ [batch])
    else Run.done batches

/-- Model of `splitIntoBatches(cids, batchSize)` run with `fuel` evaluations of the
loop condition. -/
def splitIntoBatches (fuel : Nat) (cids : List String) (batchSize : Int) :
    Run (List (List String)) :=
  splitLoop cids batchSize fuel 0 []

/-- Wrap-around of a 64-bit Go `int` (two-complement arithmetic). -/
def wrap64 (x : Int) : Int := (x + 2 ^ 63) % 2 ^ 64 - 2 ^ 63

/-- The loop of `splitIntoBatches` with the wrap-around of 64-bit `int`
addition made explicit. -/
def splitLoop64 (cids : List String) (batchSize : Int) :
    Nat → Int → List (List String) → Run (List (List String))
  | 0, _, _ => Run.outOfFuel
  | fuel + 1, i, batches =>
    if i < (cids.length : Int) then
      let end0 := wrap64 (i + batchSize)
      let end1 := if end0 > (cids.length : Int) then (cids.length : Int) else end0
      match goSlice cids i end1 with
      | none => Run.panicked "slice bounds out of range"
      | some batch => splitLoop64 cids batchSize fuel (wrap64 (i + batchSize)) (batches ++ [batch])
    else Run.done batches

/-! ## Batch size computed by `main` (main.go, lines 118-125) -/

/-- Go integer division `a / b`: panics when the divisor is zero, truncates
toward zero otherwise. -/
def goDiv (a b : Int) : Run Int :=
  if b = 0 then Run.panicked "integer divide by zero" else Run.done (Int.tdiv a b)

/-- The variable `batchSizePerCPU` of `main` after line 125, for a list of
`total` identifiers and `concurrentLimit := runtime.NumCPU()`. -/
def batchSizePerCPU (total : Nat) (concurrentLimit : Int) : Run Int :=
  match goDiv (total : Int) concurrentLimit with
  | Run.done q => Run.done (if q = 0 then 1 else q)
  | Run.panicked msg => Run.panicked msg
  | Run.outOfFuel => Run.outOfFuel

/-! ## Identifier list derived from the fetched text (main.go, lines 78-79) -/

/-- Go `unicode.IsSpace`: the code points with the Unicode White_Space
property. -/
def isSpace (c : Char) : Bool :=
  let n := c.toNat
  (9 ≤ n && n ≤ 13) || n = 32 || n = 0x85 || n = 0xA0 || n = 0x1680 ||
  (0x2000 ≤ n && n ≤ 0x200A) || n = 0x2028 || n = 0x2029 || n = 0x202F ||
  n = 0x205F || n = 0x3000

/-- Go `strings.TrimSpace` on the characters of a string. -/
def trimSpace (s : List Char) : List Char :=
  ((s.dropWhile isSpace).reverse.dropWhile isSpace).reverse

/-- Go `strings.Split(s, "\n")` on the characters of a string: one more piece
than there are newlines, so the empty string gives one empty piece. -/
def splitLines : List Char → List (List Char)
  | [] => [[]]
  | c :: cs =>
    if c = '\n' then [] :: splitLines cs
    else
      match splitLines cs with
      | [] => [[c]]
      | w :: ws => (c :: w) :: ws

/-- The slice `cids` of `main`:
`strings.Split(strings.TrimSpace(cidsStr), "\n")`. -/
def cidsOfText (cidsStr : String) : List String :=
  (splitLines (trimSpace cidsStr.data)).map String.mk

/-! ## `ConnectToDelegates` (main.go, lines 317-334) -/

/-- The Go type `peer.AddrInfo`. -/
structure AddrInfo where
  ID : String
  Addrs : List String
  deriving Repr, DecidableEq

/-- Calls `ConnectToDelegates` makes on the host, in program order. -/
inductive HostEvent where
  /-- The call `Peerstore().AddAddrs(id, addrs, time.Hour)`. -/
  | addAddrs (id : String) (addrs : List String)
  /-- The call `Host.Connect(ctx, AddrInfo{ID: id})` and the error it returned. -/
  | connect (id : String) (err : Option String)
  /-- The call `ConnManager().Protect(id, "pinning")`. -/
  | protect (id : String) (tag : String)
  deriving Repr, DecidableEq

/-- The libp2p host as a state machine over an arbitrary state type: what
each operation used by `ConnectToDelegates` answers and how it changes the
host. -/
structure Host (σ : Type) where
  addAddrs : σ → String → List String → σ
  isConnected : σ → String → Bool
  connect : σ → String → Option String × σ
  protect : σ → String → String → σ

/-- What a call of `ConnectToDelegates` leaves behind: the returned error
(`none` is `nil`), the host state and the calls made on the host. -/
structure ConnectResult (σ : Type) where
  err : Option String
  host : σ
  trace : List HostEvent

/-- Model of `ConnectToDelegates(ctx, node, peerInfos)`, started in host state
`s` with the calls `tr` already made. -/
def ConnectToDelegates {σ : Type} (h : Host σ) (s : σ) (tr : List HostEvent) :
    List AddrInfo → ConnectResult σ
  | [] => ⟨none, s, tr⟩
  | peerInfo :: rest =>
    let s1 := h.addAddrs s peerInfo.ID peerInfo.Addrs
    let tr1 := tr ++ [HostEvent.addAddrs peerInfo.ID peerInfo.Addrs]
    if h.isConnected s1 peerInfo.ID then
      ConnectToDelegates h s1 tr1 rest
    else
      match h.connect s1 peerInfo.ID with
      | (some err, s2) => ⟨some err, s2, tr1 ++ [HostEvent.connect peerInfo.ID (some err)]⟩
      | (none, s2) =>
        ConnectToDelegates h (h.protect s2 peerInfo.ID "pinning")
          (tr1 ++ [HostEvent.connect peerInfo.ID none, HostEvent.protect peerInfo.ID "pinning"])
          rest

/-- What the bootstrap contract asks of a list of peers that are all
processed, stated on the host alone and independently of
`ConnectToDelegates`: `ProcessedAll h s peers s' tr` holds when, starting
from host state `s`, for each peer in order its addresses are registered;
when the peer is then already connected nothing more is done for it; when it
is not, a connection is attempted, succeeds, and the peer is protected under
`"pinning"`; `s'` is the host state after the last peer and `tr` the calls
made on the host, in order. -/
inductive ProcessedAll {σ : Type} (h : Host σ) : σ → List AddrInfo → σ → List HostEvent → Prop where
  | nil (s : σ) : ProcessedAll h s [] s []
  | connected (s : σ) (p : AddrInfo) (rest : List AddrInfo) (s' : σ) (tr : List HostEvent) :
      h.isConnected (h.addAddrs s p.ID p.Addrs) p.ID = true →
      ProcessedAll h (h.addAddrs s p.ID p.Addrs) rest s' tr →
      ProcessedAll h s (p :: rest) s' (HostEvent.addAddrs p.ID p.Addrs :: tr)
  | dialed (s : σ) (p : AddrInfo) (rest : List AddrInfo) (s2 s' : σ) (tr : List HostEvent) :
      h.isConnected (h.addAddrs s p.ID p.Addrs) p.ID = false →
      h.connect (h.addAddrs s p.ID p.Addrs) p.ID = (none, s2) →
      ProcessedAll h (h.protect s2 p.ID "pinning") rest s' tr →
      ProcessedAll h s (p :: rest) s'
        (HostEvent.addAddrs p.ID p.Addrs :: HostEvent.connect p.ID none ::
          HostEvent.protect p.ID "pinning" :: tr)

/-- The address registrations found in a trace, in order. -/
def registrations : List HostEvent → List AddrInfo
  | [] => []
  | HostEvent.addAddrs id addrs :: rest => ⟨id, addrs⟩ :: registrations rest
  | _ :: rest => registrations rest

/-- Whether an event is a connection attempt that returned an error. -/
def HostEvent.isFailedConnect : HostEvent → Bool
  | HostEvent.connect _ (some _) => true
  | _ => false

/-! ## `fetchCID` (main.go, lines 177-224) -/

/-- A decoded content identifier (`cid.Cid`). -/
abbrev Cid := String

/-- The error values `fetchCID` builds with `fmt.Errorf`. -/
inductive FetchErr where
  /-- Line 189: `"Error decoding cid: %s"` with the decode error. -/
  | decoding (e : String)
  /-- Line 196: `"error getting cid: %s"` with the error of `nd.Size()`. -/
  | size (e : String)
  /-- Line 201: `"error getting cid: %s"` formatted with `err`, the decode
  error, which is `nil` on this path. -/
  | getNil
  deriving Repr, DecidableEq

/-- What `nd.Size()` returns. -/
structure SizeResult where
  size : Nat
  errS : Option String
  deriving Repr, DecidableEq

/-- What `node.Get(ctx, cidD)` returns: the node `nd` (`none` is the nil
interface value, otherwise what its `Size` method answers) and the error
`errF`. -/
structure GetResult where
  nd : Option SizeResult
  errF : Option String
  deriving Repr, DecidableEq

/-- Behaviour of the content-addressed client as seen by `fetchCID`. -/
structure Client where
  decode : String → Except String Cid
  get : Cid → GetResult

/-- Lines written to standard output. -/
inductive Output where
  | listOfCids
  | processingBatch (n : Nat)
  | fetching (cidItem : String)
  | size (n : Nat)
  | finishedBatch
  | errorFetching (e : FetchErr)
  deriving Repr, DecidableEq

/-- Whether a printed line is an `"Error fetching CID"` line. -/
def Output.isErrorFetching : Output → Bool
  | Output.errorFetching _ => true
  | _ => false

/-- Effects of the body of `fetchCID` (lines 187-223), in program order. -/
inductive Op where
  | print (o : Output)
  /-- The call `node.Get(context.Background(), cidD)`. -/
  | get (c : Cid)
  /-- The statement `results <- v`; `none` is `nil`. -/
  | send (v : Option FetchErr)
  /-- The call `nd.Size()` on a nil `nd`: a nil dereference panic. -/
  | nilDeref
  deriving Repr, DecidableEq

/-- The body of `fetchCID` between acquiring the semaphore and the deferred
calls, for the client `cl`. -/
def fetchBody (cl : Client) (cidItem : String) : List Op :=
  match cl.decode cidItem with
  | Except.error e => [Op.send (some (FetchErr.decoding e))]
  | Except.ok cidD =>
    let r := cl.get cidD
    [Op.print (Output.fetching cidItem), Op.get cidD] ++
    match r.nd with
    | none => [Op.nilDeref]
    | some sz =>
      match sz.errS with
      | some e => [Op.send (some (FetchErr.size e))]
      | none =>
        [Op.print (Output.size sz.size)] ++
        (match r.errF with
          | some _ => [Op.send (some FetchErr.getNil)]
          | none => []) ++
        [Op.send none]

/-- The values an operation sequence sends on `results`, up to the first
panic. -/
def sentValues : List Op → List (Option FetchErr)
  | [] => []
  | Op.send v :: rest => v :: sentValues rest
  | Op.nilDeref :: _ => []
  | _ :: rest => sentValues rest

/-- The outcomes one call of `fetchCID` emits on the results channel when a
receiver is always ready. -/
def fetchCID (cl : Client) (cidItem : String) : List (Option FetchErr) :=
  sentValues (fetchBody cl cidItem)

/-! ## The goroutines of a run (main.go, lines 127-172 and 177-224) -/

/-- Where a `fetchCID` goroutine stands. -/
inductive Pc where
  /-- About to execute `sem <- struct{}{}` (line 181). -/
  | acquire
  /-- Holding a semaphore slot, executing lines 187-223. -/
  | body
  /-- About to run the deferred `<-sem` (line 184). -/
  | release
  /-- About to run the deferred `wg.Done()` (line 178). -/
  | wgDone
  /-- The goroutine has returned. -/
  | exited
  deriving Repr, DecidableEq

/-- A `fetchCID` goroutine: its position, the rest of its body, whether it is
panicking, and which batch's wait group it was given. -/
structure Worker where
  pc : Pc
  ops : List Op
  panicking : Bool
  wg : Nat
  deriving Repr, DecidableEq

/-- The statements of `main` from line 140 on, in program order. -/
inductive MOp where
  | print (o : Output)
  /-- Lines 148-151: a fresh `wg` with `wg.Add(len(batch))`. -/
  | wgNew (n : Nat)
  /-- Line 153: `go fetchCID(cidItem, ...)`. -/
  | spawn (cidItem : String)
  /-- Line 154: `<-results`, the received value is discarded. -/
  | recv
  /-- Line 156: `wg.Wait()`. -/
  | wgWait
  /-- Line 159: `allBatchesWG.Done()`. -/
  | allDone
  /-- Line 164: `allBatchesWG.Wait()`. -/
  | allWait
  /-- Line 165: `close(results)`. -/
  | close
  /-- Lines 168-172: `for err := range results`, printing the non-nil values. -/
  | range
  deriving Repr, DecidableEq

/-- Statements executed by `main` for one batch (lines 142-160). -/
def batchScript (batch : List String) : List MOp :=
  [MOp.print (Output.processingBatch batch.length), MOp.wgNew batch.length] ++
  batch.flatMap (fun cidItem => [MOp.spawn cidItem, MOp.recv]) ++
  [MOp.wgWait, MOp.allDone, MOp.print Output.finishedBatch]

/-- Statements executed by `main` from line 141 to its return. -/
def mainScript (batches : List (List String)) : List MOp :=
  batches.flatMap batchScript ++ [MOp.allWait, MOp.close, MOp.range]

/-- State of a run after `main` has reached line 140. -/
structure State where
  /-- Statements `main` has still to execute. -/
  main : List MOp
  /-- The `fetchCID` goroutines started so far. -/
  workers : List Worker
  /-- Number of values in the buffer of `sem`. -/
  sem : Nat
  /-- Capacity of `sem`. -/
  cap : Nat
  /-- Counters of the per-batch wait groups `wg`, in creation order. -/
  wgs : List Int
  /-- Counter of `allBatchesWG`. -/
  allWG : Int
  /-- Whether `results` has been closed. -/
  closed : Bool
  /-- Lines printed so far. -/
  out : List Output
  /-- Calls made on the host by `ConnectToDelegates`. -/
  hostTrace : List HostEvent
  /-- Identifiers `fetchCID` has been started for. -/
  fetches : List String
  /-- Identifiers `node.Get` has been called for. -/
  gets : List Cid
  /-- Values `main` has received at line 154. -/
  received : List (Option FetchErr)
  /-- The panic that ended the process, if any. -/
  crashed : Option String
  deriving Repr, DecidableEq

/-- `main` from line 79 to line 138 on the response body `cidsStr`, the decoded
peers, `numCPU := runtime.NumCPU()` and the host state.  The error returned by
`ConnectToDelegates` at line 115 is not inspected. -/
def mainInit {σ : Type} (h : Host σ) (host0 : σ) (peerInfos : List AddrInfo)
    (cidsStr : String) (numCPU : Int) (fuel : Nat) : Run State :=
  let cids := cidsOfText cidsStr
  let conn := ConnectToDelegates h host0 [] peerInfos
  match batchSizePerCPU cids.length numCPU with
  | Run.panicked msg => Run.panicked msg
  | Run.outOfFuel => Run.outOfFuel
  | Run.done size =>
    match goDiv (cids.length : Int) size with
    | Run.panicked msg => Run.panicked msg
    | Run.outOfFuel => Run.outOfFuel
    | Run.done count =>
      if count < 0 then Run.panicked "sync: negative WaitGroup counter"
      else if numCPU < 0 then Run.panicked "makechan: size out of range"
      else
        match splitIntoBatches fuel cids size with
        | Run.panicked msg => Run.panicked msg
        | Run.outOfFuel => Run.outOfFuel
        | Run.done batches =>
          Run.done
            { main := mainScript batches, workers := [], sem := 0, cap := numCPU.toNat,
              wgs := [], allWG := count, closed := false, out := [Output.listOfCids],
              hostTrace := conn.trace, fetches := [], gets := [], received := [],
              crashed := none }

/-- One step of `main`, or `none` when `main` is blocked, has returned, or
the process has crashed.  Receiving from the unbuffered, open channel
`results` is a step of the sending goroutine. -/
def mainStep (cl : Client) (s : State) : Option State :=
  if s.crashed.isSome then none else
  match s.main with
  | [] => none
  | MOp.print o :: rest => some { s with main := rest, out := s.out ++ [o] }
  | MOp.wgNew n :: rest => some { s with main := rest, wgs := s.wgs ++ [(n : Int)] }
  | MOp.spawn cidItem :: rest =>
    some { s with
      main := rest
      workers := s.workers ++ [⟨Pc.acquire, fetchBody cl cidItem, false, s.wgs.length - 1⟩]
      fetches := s.fetches ++ [cidItem] }
  | MOp.recv :: rest =>
    if s.closed then some { s with main := rest, received := s.received ++ [none] } else none
  | MOp.wgWait :: rest =>
    if s.wgs.getLast? = some 0 then some { s with main := rest } else none
  | MOp.allDone :: rest =>
    if s.allWG - 1 < 0 then
      some { s with main := rest, allWG := s.allWG - 1,
                    crashed := some "sync: negative WaitGroup counter" }
    else some { s with main := rest, allWG := s.allWG - 1 }
  | MOp.allWait :: rest =>
    if s.allWG = 0 then some { s with main := rest } else none
  | MOp.close :: rest =>
    if s.closed then some { s with main := rest, crashed := some "close of closed channel" }
    else some { s with main := rest, closed := true }
  | MOp.range :: rest =>
    if s.closed then some { s with main := rest } else none

/-- The effect on `main` of a value `v` arriving on `results`: at line 154 it
is discarded, in the loop of line 168 it is printed when it is not `nil`.
`none` when `main` is not receiving. -/
def deliver (v : Option FetchErr) (s : State) : Option State :=
  match s.main with
  | MOp.recv :: rest => some { s with main := rest, received := s.received ++ [v] }
  | MOp.range :: _ =>
    match v with
    | some e => some { s with out := s.out ++ [Output.errorFetching e] }
    | none => some s
  | _ => none

/-- One step of the goroutine number `i`, or `none` when it is blocked, has
returned, does not exist, or the process has crashed.  A goroutine that
panics runs its deferred calls and then takes the process down.  The exit of
the process at the return of `main` is not modelled: goroutines may go on
stepping afterwards, which only adds reachable states. -/
def workerStep (i : Nat) (s : State) : Option State :=
  if s.crashed.isSome then none else
  match s.workers[i]? with
  | none => none
  | some w =>
    match w.pc with
    | Pc.acquire =>
      if s.sem < s.cap then
        some { s with sem := s.sem + 1, workers := s.workers.set i { w with pc := Pc.body } }
      else none
    | Pc.body =>
      match w.ops with
      | [] => some { s with workers := s.workers.set i { w with pc := Pc.release } }
      | Op.print o :: rest =>
        some { s with out := s.out ++ [o], workers := s.workers.set i { w with ops := rest } }
      | Op.get c :: rest =>
        some { s with gets := s.gets ++ [c], workers := s.workers.set i { w with ops := rest } }
      | Op.nilDeref :: _ =>
        some { s with
          workers := s.workers.set i { w with pc := Pc.release, ops := [], panicking := true } }
      | Op.send v :: rest =>
        if s.closed then
          some { s with
            workers := s.workers.set i { w with pc := Pc.release, ops := [], panicking := true } }
        else
          match deliver v s with
          | none => none
          | some s1 => some { s1 with workers := s.workers.set i { w with ops := rest } }
    | Pc.release =>
      if 0 < s.sem then
        some { s with sem := s.sem - 1, workers := s.workers.set i { w with pc := Pc.wgDone } }
      else none
    | Pc.wgDone =>
      match s.wgs[w.wg]? with
      | none => none
      | some n =>
        let s1 := { s with
          wgs := s.wgs.set w.wg (n - 1), workers := s.workers.set i { w with pc := Pc.exited } }
        if n - 1 < 0 then some { s1 with crashed := some "sync: negative WaitGroup counter" }
        else if w.panicking then some { s1 with crashed := some "panic in fetchCID" }
        else some s1
    | Pc.exited => none

/-- One step of the run: a step of `main` or of one of the goroutines. -/
def Step (cl : Client) (s t : State) : Prop :=
  mainStep cl s = some t ∨ ∃ i, workerStep i s = some t

/-- The states a run can reach from `s`, under every interleaving. -/
inductive Reachable (cl : Client) (s : State) : State → Prop where
  | start : Reachable cl s s
  | next {t u : State} : Reachable cl s t → Step cl t u → Reachable cl s u

/-- Whether a goroutine has acquired a slot of `sem` (line 181) and not yet
released it (line 184). -/
def Worker.holding (w : Worker) : Bool :=
  match w.pc with
  | Pc.body => true
  | Pc.release => true
  | _ => false

/-- Number of fetches in flight: goroutines that have acquired a slot of
`sem` and not yet released it. -/
def inFlight (s : State) : Nat :=
  s.workers.countP Worker.holding

/-- The invariant behind the semaphore bound: the goroutines in flight are as
many as the values buffered in `sem`, which never exceed its capacity. -/
def SemInv (s : State) : Prop := inFlight s = s.sem ∧ s.sem ≤ s.cap

/-- `main` has still to close `results` before it reaches the summary loop. -/
def Pending (m : List MOp) : Prop :=
  ∃ pre, m = pre ++ [MOp.close, MOp.range] ∧ MOp.range ∉ pre

/-- Invariant behind the empty summary. -/
def SummaryInv (s : State) : Prop :=
  (∀ o ∈ s.out, o.isErrorFetching = false) ∧
  (∀ o, MOp.print o ∈ s.main → o.isErrorFetching = false) ∧
  (∀ w ∈ s.workers, ∀ o, Op.print o ∈ w.ops → o.isErrorFetching = false) ∧
  (s.closed = false → Pending s.main)

/-- The first goroutine among the numbers below `n` that can take a step,
with the state it leads to. -/
def firstWorkerStep (s : State) : Nat → Nat → Option State
  | _, 0 => none
  | i, k + 1 =>
    match workerStep i s with
    | some t => some t
    | none => firstWorkerStep s (i + 1) k

/-- One step under the schedule that runs the oldest runnable goroutine and
lets `main` run when no goroutine can. -/
def schedStep (cl : Client) (s : State) : Option State :=
  match firstWorkerStep s 0 s.workers.length with
  | some t => some t
  | none => mainStep cl s

/-- The state after at most `n` steps under that schedule; the run stops
early when nothing can take a step. -/
def runSched (cl : Client) : Nat → State → State
  | 0, s => s
  | n + 1, s =>
    match schedStep cl s with
    | some t => runSched cl n t
    | none => s

/-- Whether any goroutine or `main` can take a step. -/
def stuck (cl : Client) (s : State) : Bool :=
  (schedStep cl s).isNone

/-- The function `main` from line 79 on: the state in which the run is after
at most `steps` steps of the schedule of `runSched`, or the panic that
stopped `main` before line 140. -/
def main {σ : Type} (h : Host σ) (host0 : σ) (peerInfos : List AddrInfo) (cl : Client)
    (cidsStr : String) (numCPU : Int) (fuel steps : Nat) : Run State :=
  match mainInit h host0 peerInfos cidsStr numCPU fuel with
  | Run.done s => Run.done (runSched cl steps s)
  | Run.panicked msg => Run.panicked msg
  | Run.outOfFuel => Run.outOfFuel

/-! ## Concrete collaborators used to run the model -/

/-- A host that starts with the connected peers listed in its state, refuses
every connection to the peer `"12D3KooWUnreachable"` and accepts all others. -/
def sampleHost : Host (List String) where
  addAddrs := fun s _ _ => s
  isConnected := fun s id => s.contains id
  connect := fun s id =>
    if id = "12D3KooWUnreachable" then (some "failed to dial", s) else (none, id :: s)
  protect := fun s _ _ => s

/-- A host whose state is the log of every call made on it, so that any call
left out or made out of order shows in the final state.  A peer counts as
connected once a `Connect` to it has succeeded; every connection to the peer
`"12D3KooWUnreachable"` is refused. -/
def recordingHost : Host (List HostEvent) where
  addAddrs := fun s id addrs => s ++ [HostEvent.addAddrs id addrs]
  isConnected := fun s id => s.contains (HostEvent.connect id none)
  connect := fun s id =>
    if id = "12D3KooWUnreachable" then
      (some "failed to dial", s ++ [HostEvent.connect id (some "failed to dial")])
    else (none, s ++ [HostEvent.connect id none])
  protect := fun s id tag => s ++ [HostEvent.protect id tag]

/-- A client for which `"invalid-cid"` and the empty string do not decode,
`"bafy-missing"` is not found (`Get` returns a nil node and an error),
`"bafy-partial"` comes back with a node and an error, and every other
identifier is fetched with size 42. -/
def sampleClient : Client where
  decode := fun s =>
    if s = "invalid-cid" ∨ s = "" then Except.error "invalid cid" else Except.ok s
  get := fun c =>
    if c = "bafy-missing" then ⟨none, some "block not found"⟩
    else if c = "bafy-partial" then ⟨some ⟨7, none⟩, some "context deadline exceeded"⟩
    else ⟨some ⟨42, none⟩, none⟩

/-! ## Concrete runs -/

/-- The end-to-end scenario of four identifiers of which the third does not
decode, on two CPUs. -/
def decodeFailureRun : Run State :=
  main sampleHost [] [] sampleClient "bafy1\nbafy2\ninvalid-cid\nbafy3\n" 2 5 100

/-- A run on an empty response body, on four CPUs. -/
def emptyTextRun : Run State :=
  main sampleHost [] [] sampleClient "" 4 2 100

/-- A run whose only bootstrap peer is unreachable, with one identifier to
fetch, on four CPUs. -/
def unreachablePeerRun : Run State :=
  main sampleHost [] [⟨"12D3KooWUnreachable", ["/ip4/10.0.0.9/tcp/4001"]⟩] sampleClient
    "bafy1" 4 2 100

/-- A run on five identifiers and two CPUs. -/
def fiveCidsRun : Run State :=
  main sampleHost [] [] sampleClient "a\nb\nc\nd\ne" 2 6 200

/-- A run in which the second of three identifiers comes back with a node and
an error, on one CPU. -/
def partialFetchRun : Run State :=
  main sampleHost [] [] sampleClient "bafy1\nbafy-partial\nbafy3" 1 4 100

/-- The state in which `main` reaches line 140 on the two identifiers
`"bafy1"` and `"bafy2"` with two CPUs. -/
def twoCidsStart : State :=
  { main := mainScript [["bafy1"], ["bafy2"]], workers := [], sem := 0, cap := 2, wgs := [],
    allWG := 2, closed := false, out := [Output.listOfCids], hostTrace := [], fetches := [],
    gets := [], received := [], crashed := none }

/-! ## `splitIntoBatches`: the loop partitions its input -/

theorem goSlice_window (cids : List String) (i n : Nat) (hi : i < cids.length) (hn : 1 ≤ n) :
    goSlice cids (i : Int)
      (if ((i : Int) + (n : Int)) > (cids.length : Int) then (cids.length : Int)
        else (i : Int) + (n : Int))
      = some ((cids.drop i).take n) := by
  unfold goSlice
  split_ifs with h1 h2 h2
  · congr 1
    have : (cids.length : Int).toNat - (i : Int).toNat = cids.length - i := by simp
    rw [this, Int.toNat_ofNat]
    apply List.take_eq_take.2
    simp only [List.length_drop]
    omega
  · omega
  · congr 1
    have : ((i : Int) + (n : Int)).toNat - (i : Int).toNat = n := by
      have : ((i : Int) + (n : Int)).toNat = i + n := by omega
      rw [this, Int.toNat_ofNat]; omega
    rw [this, Int.toNat_ofNat]
  · omega

theorem ceil_step (d n : Nat) (hd : 1 ≤ d) (hn : 1 ≤ n) :
    (d + n - 1) / n = (d - n + n - 1) / n + 1 := by
  rcases Nat.lt_or_ge d n with h | h
  · have h1 : d - n + n - 1 = n - 1 := by omega
    rw [h1, Nat.div_eq_of_lt (by omega : n - 1 < n)]
    exact Nat.div_eq_of_lt_le (by omega) (by omega)
  · have h1 : d - n + n - 1 = d - 1 := by omega
    have h2 : d + n - 1 = d - 1 + n := by omega
    rw [h1, h2, Nat.add_div_right _ (by omega : 0 < n)]

/-- Loop invariant of `splitIntoBatches`: from index `i` the loop appends batches
whose concatenation is the not yet visited suffix `cids[i:]`. -/
theorem splitLoop_spec (cids : List String) (n : Nat) (hn : 1 ≤ n) :
    ∀ (m i : Nat), cids.length - i ≤ m → ∀ acc : List (List String),
      ∃ rest : List (List String),
        (∀ fuel, m < fuel → splitLoop cids (n : Int) fuel (i : Int) acc = Run.done (acc ++ rest)) ∧
        rest.flatten = cids.drop i ∧
        rest.length = (cids.length - i + n - 1) / n ∧
        (∀ b ∈ rest, b ≠ [] ∧ b.length ≤ n) := by
  intro m
  induction m with
  | zero =>
    intro i hm acc
    refine ⟨[], ?_, ?_, ?_, ?_⟩
    · intro fuel hf
      obtain ⟨f, rfl⟩ : ∃ f, fuel = f + 1 := ⟨fuel - 1, by omega⟩
      have : ¬ ((i : Int) < (cids.length : Int)) := by omega
      simp [splitLoop, this]
    · simp [List.drop_eq_nil_of_le (by omega : cids.length ≤ i)]
    · have : cids.length - i + n - 1 = n - 1 := by omega
      rw [this, Nat.div_eq_of_lt (by omega)]; rfl
    · simp
  | succ m ih =>
    intro i hm acc
    rcases Nat.lt_or_ge i cids.length with hi | hi
    · obtain ⟨rest, hrun, hjoin, hlen, hne⟩ :=
        ih (i + n) (by omega) (acc ++ [(cids.drop i).take n])
      refine ⟨(cids.drop i).take n :: rest, ?_, ?_, ?_, ?_⟩
      · intro fuel hf
        obtain ⟨f, rfl⟩ : ∃ f, fuel = f + 1 := ⟨fuel - 1, by omega⟩
        have hlt : (i : Int) < (cids.length : Int) := by omega
        have hw := goSlice_window cids i n hi hn
        have hr := hrun f (by omega)
        simp only [splitLoop, hlt, if_true, hw]
        rw [show (i : Int) + (n : Int) = ((i + n : Nat) : Int) by push_cast; rfl, hr]
        simp
      · simp only [List.flatten_cons, hjoin]
        rw [← List.drop_drop, List.take_append_drop]
      · simp only [List.length_cons, hlen]
        have := ceil_step (cids.length - i) n (by omega) hn
        rw [this]
        congr 2
        omega
      · intro b hb
        rcases List.mem_cons.1 hb with rfl | hb
        · constructor
          · intro h
            have := congrArg List.length h
            simp only [List.length_take, List.length_drop, List.length_nil] at this
            omega
          · simp only [List.length_take, List.length_drop]; omega
        · exact hne b hb
    · refine ⟨[], ?_, ?_, ?_, ?_⟩
      · intro fuel hf
        obtain ⟨f, rfl⟩ : ∃ f, fuel = f + 1 := ⟨fuel - 1, by omega⟩
        have : ¬ ((i : Int) < (cids.length : Int)) := by omega
        simp [splitLoop, this]
      · simp [List.drop_eq_nil_of_le hi]
      · have : cids.length - i + n - 1 = n - 1 := by omega
        rw [this, Nat.div_eq_of_lt (by omega)]; rfl
      · simp

theorem ceilDiv_eq_ceil (a n : Nat) (hn : 1 ≤ n) :
    (((a + n - 1) / n : Nat) : Int) = Int.ceil ((a : ℚ) / (n : ℚ)) := by
  symm
  rw [Int.ceil_eq_iff]
  have hnq : (0 : ℚ) < (n : ℚ) := by exact_mod_cast hn
  have h1 : n * ((a + n - 1) / n) ≤ a + n - 1 := Nat.mul_div_le _ _
  have h2 : a + n - 1 < n * ((a + n - 1) / n) + n := by
    have := Nat.lt_div_mul_add (a := a + n - 1) (b := n) (by omega)
    rw [Nat.mul_comm]; exact this
  set k := (a + n - 1) / n with hk
  constructor
  · rw [lt_div_iff₀ hnq]
    have : n * k < a + n := by omega
    have : ((n * k : Nat) : ℚ) < ((a + n : Nat) : ℚ) := by exact_mod_cast this
    push_cast at this ⊢
    linarith
  · rw [div_le_iff₀ hnq]
    have : a ≤ n * k := by omega
    have : ((a : Nat) : ℚ) ≤ ((n * k : Nat) : ℚ) := by exact_mod_cast this
    push_cast at this ⊢
    linarith

/-- With a batch size of at least one, `splitIntoBatches` returns as soon as
the fuel exceeds the list length, its batches concatenate to the input, there
are `(len + n - 1) / n` of them, and none is empty or longer than `n`. -/
theorem splitIntoBatches_spec (cids : List String) (n : Nat) (hn : 1 ≤ n) :
    ∃ batches : List (List String),
      (∀ fuel, cids.length < fuel → splitIntoBatches fuel cids (n : Int) = Run.done batches) ∧
      batches.flatten = cids ∧
      batches.length = (cids.length + n - 1) / n ∧
      (∀ b ∈ batches, b ≠ [] ∧ b.length ≤ n) := by
  obtain ⟨rest, hrun, hflat, hlen, hne⟩ := splitLoop_spec cids n hn cids.length 0 (by omega) []
  refine ⟨rest, ?_, by simpa using hflat, by simpa using hlen, hne⟩
  intro fuel hf
  simpa [splitIntoBatches] using hrun fuel hf

theorem wrap64_id (x : Int) (h0 : 0 ≤ x) (h1 : x < 2 ^ 63) : wrap64 x = x := by
  unfold wrap64
  omega

/-- For a slice of fewer than `2 ^ 62` identifiers and a batch size between 1
and the largest `int`, no addition of the loop wraps around: the loop with
64-bit arithmetic and the loop over the integers agree. -/
theorem splitLoop64_eq (cids : List String) (n : Int) (hn : 1 ≤ n) (hmax : n < 2 ^ 63)
    (hlen : (cids.length : Int) < 2 ^ 62) :
    ∀ (fuel : Nat) (i : Int) (acc : List (List String)), (i = 0 ∨ n ≤ i) →
      splitLoop64 cids n fuel i acc = splitLoop cids n fuel i acc := by
  intro fuel
  induction fuel with
  | zero => intro i acc _; rfl
  | succ fuel ih =>
    intro i acc hi
    by_cases hlt : i < (cids.length : Int)
    · have hw : wrap64 (i + n) = i + n := wrap64_id _ (by omega) (by omega)
      simp only [splitLoop64, splitLoop, hlt, if_true, hw]
      split
      · rfl
      · exact ih (i + n) _ (Or.inr (by omega))
    · simp only [splitLoop64, splitLoop, hlt, if_false]

/-! ## Claims about `splitIntoBatches` and the batch size -/

/-- C1: for every list of identifiers (the non-empty ones in particular) and
every batch size `n ≥ 1`, `splitIntoBatches(cids, n)` returns, the returned
batches concatenated in order are `cids` itself, and their number is
`ceil(len(cids) / n)`. -/
theorem splitIntoBatches_partitions (cids : List String) (n : Int) (hn : 1 ≤ n) :
    ∃ batches : List (List String),
      (∀ fuel, cids.length < fuel → splitIntoBatches fuel cids n = Run.done batches) ∧
      batches.flatten = cids ∧
      (batches.length : Int) = Int.ceil ((cids.length : ℚ) / (n : ℚ)) := by
  obtain ⟨m, rfl⟩ := Int.eq_ofNat_of_zero_le (by omega : 0 ≤ n)
  obtain ⟨batches, hrun, hflat, hlen, -⟩ := splitIntoBatches_spec cids m (by omega)
  refine ⟨batches, hrun, hflat, ?_⟩
  rw [hlen]
  simpa using ceilDiv_eq_ceil cids.length m (by omega)

/-- C1 at the four identifiers of the end-to-end scenario with size 2: the
batches are `[["bafy1","bafy2"],["invalid-cid","bafy3"]]`. -/
theorem splitIntoBatches_partitions_witness :
    (1 : Int) ≤ 2 ∧
    (∃ batches : List (List String),
      (∀ fuel, ["bafy1", "bafy2", "invalid-cid", "bafy3"].length < fuel →
        splitIntoBatches fuel ["bafy1", "bafy2", "invalid-cid", "bafy3"] 2 = Run.done batches) ∧
      batches.flatten = ["bafy1", "bafy2", "invalid-cid", "bafy3"] ∧
      (batches.length : Int) =
        Int.ceil (((["bafy1", "bafy2", "invalid-cid", "bafy3"].length : Nat) : ℚ) /
          ((2 : Int) : ℚ))) ∧
    splitIntoBatches 5 ["bafy1", "bafy2", "invalid-cid", "bafy3"] 2 =
      Run.done [["bafy1", "bafy2"], ["invalid-cid", "bafy3"]] :=
  ⟨by decide, splitIntoBatches_partitions _ 2 (by decide), by decide⟩

theorem batchSizePerCPU_pos (total : Nat) (c : Int) (hc : 1 ≤ c) :
    batchSizePerCPU total c = Run.done (max 1 ((total : Int) / c)) := by
  have hc0 : c ≠ 0 := by omega
  have hq : Int.tdiv (total : Int) c = (total : Int) / c :=
    Int.tdiv_eq_ediv (by omega) (by omega)
  have hnn : 0 ≤ (total : Int) / c := Int.ediv_nonneg (by omega) (by omega)
  simp only [batchSizePerCPU, goDiv, hc0, if_false, hq]
  congr 1
  split_ifs with h <;> omega

/-- C7, as stated, fails: with capacity 0 the computation panics on the
division, and with capacity -1 and two identifiers it yields -2, a size
with which `splitIntoBatches` itself panics. -/
theorem batchSizePerCPU_nonpositive_counterexample :
    batchSizePerCPU ["a"].length 0 = Run.panicked "integer divide by zero" ∧
    batchSizePerCPU ["a", "b"].length (-1) = Run.done (-2) ∧
    splitIntoBatches 3 ["a", "b"] (-2) = Run.panicked "slice bounds out of range" := by
  decide

/-- C7, amended: for every capacity that is at least 1, or negative with a
magnitude above the list length, the batch-size computation does not divide
by zero and yields a size of at least 1 (exactly 1 when the magnitude of the
capacity exceeds the list length), and `splitIntoBatches` with that size
returns and produces no empty batch. -/
theorem batchSizePerCPU_clamped (cids : List String) (c : Int)
    (h : 1 ≤ c ∨ (cids.length : Int) < |c|) :
    ∃ size : Int, 1 ≤ size ∧ batchSizePerCPU cids.length c = Run.done size ∧
      ((cids.length : Int) < |c| → size = 1) ∧
      ∃ batches : List (List String),
        (∀ fuel, cids.length < fuel → splitIntoBatches fuel cids size = Run.done batches) ∧
        ∀ b ∈ batches, b ≠ [] := by
  have key : ∃ size : Int, 1 ≤ size ∧ batchSizePerCPU cids.length c = Run.done size ∧
      ((cids.length : Int) < |c| → size = 1) := by
    by_cases hlt : (cids.length : Int) < |c|
    · have hc0 : c ≠ 0 := by
        rintro rfl
        simp only [abs_zero] at hlt
        omega
      have hq : Int.tdiv (cids.length : Int) c = 0 := by
        rcases le_or_lt 0 c with hpos | hneg
        · rw [abs_of_nonneg hpos] at hlt
          exact Int.tdiv_eq_zero_of_lt (by omega) hlt
        · rw [abs_of_neg hneg] at hlt
          have := Int.tdiv_eq_zero_of_lt (a := (cids.length : Int)) (b := -c) (by omega) hlt
          rw [Int.tdiv_neg] at this
          omega
      exact ⟨1, le_refl _, by simp [batchSizePerCPU, goDiv, hc0, hq], fun _ => rfl⟩
    · have hc : 1 ≤ c := by
        rcases h with h | h
        · exact h
        · exact absurd h hlt
      exact ⟨max 1 ((cids.length : Int) / c), le_max_left _ _,
        batchSizePerCPU_pos cids.length c hc, fun h => absurd h hlt⟩
  obtain ⟨size, h1, hsize, hone⟩ := key
  obtain ⟨m, rfl⟩ := Int.eq_ofNat_of_zero_le (by omega : 0 ≤ size)
  obtain ⟨batches, hrun, -, -, hne⟩ := splitIntoBatches_spec cids m (by omega)
  exact ⟨m, h1, hsize, hone, batches, hrun, fun b hb => (hne b hb).1⟩

/-- C7, amended, at three identifiers and capacity -5: the size is 1 and the
three batches are singletons. -/
theorem batchSizePerCPU_clamped_witness :
    (((["a", "b", "c"].length : Nat) : Int) < |(-5 : Int)|) ∧
    (∃ size : Int, 1 ≤ size ∧ batchSizePerCPU ["a", "b", "c"].length (-5) = Run.done size ∧
      ((["a", "b", "c"].length : Int) < |(-5 : Int)| → size = 1) ∧
      ∃ batches : List (List String),
        (∀ fuel, ["a", "b", "c"].length < fuel →
          splitIntoBatches fuel ["a", "b", "c"] size = Run.done batches) ∧
        ∀ b ∈ batches, b ≠ []) ∧
    batchSizePerCPU 3 (-5) = Run.done 1 ∧
    splitIntoBatches 4 ["a", "b", "c"] 1 = Run.done [["a"], ["b"], ["c"]] :=
  ⟨by decide, batchSizePerCPU_clamped ["a", "b", "c"] (-5) (Or.inr (by decide)),
    by decide, by decide⟩

/-- C8, as stated, fails: for three identifiers and a concurrency limit of 2
the program computes the batch size 1, while `max(1, ceil(3 / 2))` is 2. -/
theorem batchSizePerCPU_ceil_counterexample :
    batchSizePerCPU 3 2 = Run.done 1 ∧
    max 1 (Int.ceil (((3 : Nat) : ℚ) / ((2 : Int) : ℚ))) = 2 ∧
    batchSizePerCPU 3 2 ≠ Run.done (max 1 (Int.ceil (((3 : Nat) : ℚ) / ((2 : Int) : ℚ)))) := by
  have hceil : Int.ceil (((3 : Nat) : ℚ) / ((2 : Int) : ℚ)) = 2 := by
    rw [Int.ceil_eq_iff]; norm_num
  rw [hceil]
  decide

/-- C8, amended: for every identifier list of length `total` and every
concurrency limit `c ≥ 1`, the batch size the program computes is
`floor(total / c)` with a floor of 1, that is `max(1, floor(total / c))`. -/
theorem batchSizePerCPU_floor (total : Nat) (c : Int) (hc : 1 ≤ c) :
    batchSizePerCPU total c = Run.done (max 1 (Int.floor ((total : ℚ) / (c : ℚ)))) := by
  rw [batchSizePerCPU_pos total c hc]
  obtain ⟨m, rfl⟩ := Int.eq_ofNat_of_zero_le (by omega : 0 ≤ c)
  have := Rat.floor_intCast_div_natCast (total : Int) m
  simp only [Int.cast_natCast] at this ⊢
  rw [this]

/-- C8, amended, at five identifiers and two CPUs: the batch size is 2. -/
theorem batchSizePerCPU_floor_witness :
    (1 : Int) ≤ 2 ∧
    batchSizePerCPU 5 2 = Run.done (max 1 (Int.floor (((5 : Nat) : ℚ) / ((2 : Int) : ℚ)))) ∧
    batchSizePerCPU 5 2 = Run.done 2 :=
  ⟨by decide, batchSizePerCPU_floor 5 2 (by decide), by decide⟩

/-! ## `ConnectToDelegates` fails fast -/

theorem registrations_append (xs ys : List HostEvent) :
    registrations (xs ++ ys) = registrations xs ++ registrations ys := by
  induction xs with
  | nil => rfl
  | cons x xs ih => cases x <;> simp [registrations, ih]

/-- Running over `pre ++ post` is running over `pre` and, when that returned
no error, continuing over `post`. -/
theorem ConnectToDelegates_append {σ : Type} (h : Host σ) (pre post : List AddrInfo) :
    ∀ (s : σ) (tr : List HostEvent),
      ConnectToDelegates h s tr (pre ++ post) =
        if (ConnectToDelegates h s tr pre).err = none then
          ConnectToDelegates h (ConnectToDelegates h s tr pre).host
            (ConnectToDelegates h s tr pre).trace post
        else ConnectToDelegates h s tr pre := by
  induction pre with
  | nil => intro s tr; simp [ConnectToDelegates]
  | cons p pre ih =>
    intro s tr
    rw [List.cons_append]
    simp only [ConnectToDelegates]
    split_ifs with hc h1 h1
    · rw [ih, if_pos h1]
    · rw [ih, if_neg h1]
    · rcases hcon : h.connect (h.addAddrs s p.ID p.Addrs) p.ID with ⟨_ | e, s2⟩
      · simp only [hcon] at h1 ⊢
        rw [ih, if_pos h1]
      · simp [hcon] at h1
    · rcases hcon : h.connect (h.addAddrs s p.ID p.Addrs) p.ID with ⟨_ | e, s2⟩
      · simp only [hcon] at h1 ⊢
        rw [ih, if_neg h1]
      · simp [hcon]

/-- A call that returns `nil` has registered the addresses of every peer. -/
theorem ConnectToDelegates_ok {σ : Type} (h : Host σ) (peers : List AddrInfo) :
    ∀ (s : σ) (tr : List HostEvent), (ConnectToDelegates h s tr peers).err = none →
      registrations (ConnectToDelegates h s tr peers).trace = registrations tr ++ peers := by
  induction peers with
  | nil => intro s tr _; simp [ConnectToDelegates]
  | cons p peers ih =>
    intro s tr
    simp only [ConnectToDelegates]
    split_ifs with hc
    · intro he
      rw [ih _ _ he]
      simp [registrations_append, registrations]
    · rcases hcon : h.connect (h.addAddrs s p.ID p.Addrs) p.ID with ⟨_ | e, s2⟩
      · simp only
        intro he
        rw [ih _ _ he]
        simp [registrations_append, registrations]
      · simp

/-- A call that returns an error has made a connection attempt that failed. -/
theorem ConnectToDelegates_err {σ : Type} (h : Host σ) (peers : List AddrInfo) :
    ∀ (s : σ) (tr : List HostEvent) (e : String),
      (ConnectToDelegates h s tr peers).err = some e →
      ∃ ev ∈ (ConnectToDelegates h s tr peers).trace, ev.isFailedConnect = true := by
  induction peers with
  | nil => intro s tr e; simp [ConnectToDelegates]
  | cons p peers ih =>
    intro s tr e
    simp only [ConnectToDelegates]
    split_ifs with hc
    · exact ih _ _ e
    · rcases hcon : h.connect (h.addAddrs s p.ID p.Addrs) p.ID with ⟨_ | e2, s2⟩
      · simp only
        exact ih _ _ e
      · intro _
        exact ⟨HostEvent.connect p.ID (some e2), by simp, rfl⟩

/-- On peers that are all processed, `ConnectToDelegates` returns `nil`, leaves
the host in the state the contract describes and has made exactly the calls
it describes. -/
theorem ConnectToDelegates_of_processedAll {σ : Type} (h : Host σ) (s s' : σ)
    (peers : List AddrInfo) (tr : List HostEvent) (hp : ProcessedAll h s peers s' tr) :
    ∀ tr0 : List HostEvent, ConnectToDelegates h s tr0 peers = ⟨none, s', tr0 ++ tr⟩ := by
  induction hp with
  | nil s => intro tr0; simp [ConnectToDelegates]
  | connected s p rest s' tr hc _ ih =>
    intro tr0
    simp only [ConnectToDelegates, hc, if_true]
    rw [ih]
    simp
  | dialed s p rest s2 s' tr hc hcon _ ih =>
    intro tr0
    simp only [ConnectToDelegates, hc, hcon]
    rw [if_neg (by simp), ih]
    simp

/-- When the peers before `p` are all processed and the connection to `p`
fails, `ConnectToDelegates` stops at `p`. -/
theorem ConnectToDelegates_of_failure {σ : Type} (h : Host σ) (s s1 : σ)
    (pre : List AddrInfo) (tr1 : List HostEvent) (hp : ProcessedAll h s pre s1 tr1)
    (p : AddrInfo) (post : List AddrInfo) (e : String) (s2 : σ)
    (hc : h.isConnected (h.addAddrs s1 p.ID p.Addrs) p.ID = false)
    (hcon : h.connect (h.addAddrs s1 p.ID p.Addrs) p.ID = (some e, s2)) :
    ∀ tr0 : List HostEvent, ConnectToDelegates h s tr0 (pre ++ p :: post) =
      ⟨some e, s2,
        tr0 ++ tr1 ++ [HostEvent.addAddrs p.ID p.Addrs, HostEvent.connect p.ID (some e)]⟩ := by
  induction hp with
  | nil s =>
    intro tr0
    simp only [List.nil_append, ConnectToDelegates, hc, hcon]
    rw [if_neg (by simp)]
    simp
  | connected s q rest s' tr hq _ ih =>
    intro tr0
    rw [List.cons_append]
    simp only [ConnectToDelegates, hq, if_true]
    rw [ih hc hcon]
    simp
  | dialed s q rest s3 s' tr hq hqcon _ ih =>
    intro tr0
    rw [List.cons_append]
    simp only [ConnectToDelegates, hq, hqcon]
    rw [if_neg (by simp), ih hc hcon]
    simp

/-- Every list of peers is either processed in full or has a first peer, not
connected at its turn, whose connection fails. -/
theorem processedAll_or_failure {σ : Type} (h : Host σ) (peers : List AddrInfo) :
    ∀ s : σ, (∃ s' tr, ProcessedAll h s peers s' tr) ∨
      ∃ (pre post : List AddrInfo) (p : AddrInfo) (s1 : σ) (tr1 : List HostEvent)
        (e : String) (s2 : σ),
        peers = pre ++ p :: post ∧ ProcessedAll h s pre s1 tr1 ∧
        h.isConnected (h.addAddrs s1 p.ID p.Addrs) p.ID = false ∧
        h.connect (h.addAddrs s1 p.ID p.Addrs) p.ID = (some e, s2) := by
  induction peers with
  | nil => intro s; exact Or.inl ⟨s, [], ProcessedAll.nil s⟩
  | cons p rest ih =>
    intro s
    cases hc : h.isConnected (h.addAddrs s p.ID p.Addrs) p.ID with
    | true =>
      rcases ih (h.addAddrs s p.ID p.Addrs) with ⟨s', tr, hp⟩ |
        ⟨pre, post, q, s1, tr1, e, s2, hsplit, hp, hq, hqcon⟩
      · exact Or.inl ⟨s', _, ProcessedAll.connected s p rest s' tr hc hp⟩
      · exact Or.inr ⟨p :: pre, post, q, s1, _, e, s2, by rw [hsplit]; rfl,
          ProcessedAll.connected s p pre s1 tr1 hc hp, hq, hqcon⟩
    | false =>
      rcases hcon : h.connect (h.addAddrs s p.ID p.Addrs) p.ID with ⟨_ | e, s2⟩
      · rcases ih (h.protect s2 p.ID "pinning") with ⟨s', tr, hp⟩ |
          ⟨pre, post, q, s1, tr1, e, s3, hsplit, hp, hq, hqcon⟩
        · exact Or.inl ⟨s', _, ProcessedAll.dialed s p rest s2 s' tr hc hcon hp⟩
        · exact Or.inr ⟨p :: pre, post, q, s1, _, e, s3, by rw [hsplit]; rfl,
            ProcessedAll.dialed s p pre s2 s1 tr1 hc hcon hp, hq, hqcon⟩
      · exact Or.inr ⟨[], rest, p, s, [], e, s2, rfl, ProcessedAll.nil s, hc, hcon⟩

/-- C5: `ConnectToDelegates` fails fast.  If the peers before `p` are all
processed as the contract asks (addresses registered, already connected
peers left alone, the others connected and protected) and `p`, not connected
when its turn comes, has a failing `Connect`, the call returns that error,
leaves the host as that failed `Connect` left it, and the calls it has made on
the host are those for the peers before `p` followed by the address
registration and the connection attempt for `p`: no protection of `p` and no
call at all for the peers after it.  If every peer is processed, no
connection attempt failing, the call returns `nil` with exactly the calls and
the final host state of the contract.  One of the two cases always applies. -/
theorem ConnectToDelegates_fail_fast {σ : Type} (h : Host σ) (s : σ) (peers : List AddrInfo) :
    (∀ (pre post : List AddrInfo) (p : AddrInfo) (s1 : σ) (tr1 : List HostEvent)
        (e : String) (s2 : σ),
      peers = pre ++ p :: post →
      ProcessedAll h s pre s1 tr1 →
      h.isConnected (h.addAddrs s1 p.ID p.Addrs) p.ID = false →
      h.connect (h.addAddrs s1 p.ID p.Addrs) p.ID = (some e, s2) →
        ConnectToDelegates h s [] peers =
          ⟨some e, s2,
            tr1 ++ [HostEvent.addAddrs p.ID p.Addrs, HostEvent.connect p.ID (some e)]⟩) ∧
    (∀ (s' : σ) (tr : List HostEvent), ProcessedAll h s peers s' tr →
        ConnectToDelegates h s [] peers = ⟨none, s', tr⟩) ∧
    ((∃ s' tr, ProcessedAll h s peers s' tr) ∨
      ∃ (pre post : List AddrInfo) (p : AddrInfo) (s1 : σ) (tr1 : List HostEvent)
        (e : String) (s2 : σ),
        peers = pre ++ p :: post ∧ ProcessedAll h s pre s1 tr1 ∧
        h.isConnected (h.addAddrs s1 p.ID p.Addrs) p.ID = false ∧
        h.connect (h.addAddrs s1 p.ID p.Addrs) p.ID = (some e, s2)) := by
  refine ⟨?_, ?_, processedAll_or_failure h peers s⟩
  · rintro pre post p s1 tr1 e s2 rfl hp hc hcon
    simpa using ConnectToDelegates_of_failure h s s1 pre tr1 hp p post e s2 hc hcon []
  · intro s' tr hp
    simpa using ConnectToDelegates_of_processedAll h s s' peers tr hp []

/-- C5 on three peers of which the second is unreachable: the first is
connected and protected, the call stops at the second with its error, and
nothing is done for the third.  On a host already connected to the peer
whose `Connect` would fail: that peer is left alone, the other one is
connected and protected, and the call returns `nil`.  And on the host that
logs its calls, with a peer listed twice before the unreachable one: the
final host state is the log of exactly the calls of the contract. -/
theorem ConnectToDelegates_fail_fast_witness :
    ConnectToDelegates sampleHost [] []
        [⟨"12D3KooWA", ["/ip4/10.0.0.1/tcp/4001"]⟩, ⟨"12D3KooWUnreachable", []⟩,
          ⟨"12D3KooWC", []⟩] =
      ⟨some "failed to dial", ["12D3KooWA"],
        [HostEvent.addAddrs "12D3KooWA" ["/ip4/10.0.0.1/tcp/4001"],
          HostEvent.connect "12D3KooWA" none, HostEvent.protect "12D3KooWA" "pinning"] ++
        [HostEvent.addAddrs "12D3KooWUnreachable" [],
          HostEvent.connect "12D3KooWUnreachable" (some "failed to dial")]⟩ ∧
    ConnectToDelegates sampleHost ["12D3KooWUnreachable"] []
        [⟨"12D3KooWUnreachable", []⟩, ⟨"12D3KooWC", []⟩] =
      ⟨none, ["12D3KooWC", "12D3KooWUnreachable"],
        [HostEvent.addAddrs "12D3KooWUnreachable" [], HostEvent.addAddrs "12D3KooWC" [],
          HostEvent.connect "12D3KooWC" none, HostEvent.protect "12D3KooWC" "pinning"]⟩ ∧
    ConnectToDelegates recordingHost [] []
        [⟨"12D3KooWA", []⟩, ⟨"12D3KooWA", []⟩, ⟨"12D3KooWUnreachable", []⟩,
          ⟨"12D3KooWC", []⟩] =
      ⟨some "failed to dial",
        [HostEvent.addAddrs "12D3KooWA" [], HostEvent.connect "12D3KooWA" none,
          HostEvent.protect "12D3KooWA" "pinning", HostEvent.addAddrs "12D3KooWA" [],
          HostEvent.addAddrs "12D3KooWUnreachable" [],
          HostEvent.connect "12D3KooWUnreachable" (some "failed to dial")],
        [HostEvent.addAddrs "12D3KooWA" [], HostEvent.connect "12D3KooWA" none,
          HostEvent.protect "12D3KooWA" "pinning", HostEvent.addAddrs "12D3KooWA" []] ++
        [HostEvent.addAddrs "12D3KooWUnreachable" [],
          HostEvent.connect "12D3KooWUnreachable" (some "failed to dial")]⟩ :=
  ⟨(ConnectToDelegates_fail_fast sampleHost []
      [⟨"12D3KooWA", ["/ip4/10.0.0.1/tcp/4001"]⟩, ⟨"12D3KooWUnreachable", []⟩,
        ⟨"12D3KooWC", []⟩]).1
      [⟨"12D3KooWA", ["/ip4/10.0.0.1/tcp/4001"]⟩] [⟨"12D3KooWC", []⟩]
      ⟨"12D3KooWUnreachable", []⟩ ["12D3KooWA"] _ "failed to dial" ["12D3KooWA"] rfl
      (ProcessedAll.dialed [] ⟨"12D3KooWA", ["/ip4/10.0.0.1/tcp/4001"]⟩ [] ["12D3KooWA"]
        ["12D3KooWA"] [] (by decide) (by decide) (ProcessedAll.nil _))
      (by decide) (by decide),
    (ConnectToDelegates_fail_fast sampleHost ["12D3KooWUnreachable"]
      [⟨"12D3KooWUnreachable", []⟩, ⟨"12D3KooWC", []⟩]).2.1 _ _
      (ProcessedAll.connected ["12D3KooWUnreachable"] ⟨"12D3KooWUnreachable", []⟩
        [⟨"12D3KooWC", []⟩] ["12D3KooWC", "12D3KooWUnreachable"] _ (by decide)
        (ProcessedAll.dialed ["12D3KooWUnreachable"] ⟨"12D3KooWC", []⟩ []
          ["12D3KooWC", "12D3KooWUnreachable"] ["12D3KooWC", "12D3KooWUnreachable"] []
          (by decide) (by decide) (ProcessedAll.nil _))),
    (ConnectToDelegates_fail_fast recordingHost []
      [⟨"12D3KooWA", []⟩, ⟨"12D3KooWA", []⟩, ⟨"12D3KooWUnreachable", []⟩,
        ⟨"12D3KooWC", []⟩]).1
      [⟨"12D3KooWA", []⟩, ⟨"12D3KooWA", []⟩] [⟨"12D3KooWC", []⟩]
      ⟨"12D3KooWUnreachable", []⟩
      [HostEvent.addAddrs "12D3KooWA" [], HostEvent.connect "12D3KooWA" none,
        HostEvent.protect "12D3KooWA" "pinning", HostEvent.addAddrs "12D3KooWA" []]
      _ "failed to dial"
      [HostEvent.addAddrs "12D3KooWA" [], HostEvent.connect "12D3KooWA" none,
        HostEvent.protect "12D3KooWA" "pinning", HostEvent.addAddrs "12D3KooWA" [],
        HostEvent.addAddrs "12D3KooWUnreachable" [],
        HostEvent.connect "12D3KooWUnreachable" (some "failed to dial")]
      rfl
      (ProcessedAll.dialed [] ⟨"12D3KooWA", []⟩ [⟨"12D3KooWA", []⟩]
        [HostEvent.addAddrs "12D3KooWA" [], HostEvent.connect "12D3KooWA" none]
        [HostEvent.addAddrs "12D3KooWA" [], HostEvent.connect "12D3KooWA" none,
          HostEvent.protect "12D3KooWA" "pinning", HostEvent.addAddrs "12D3KooWA" []]
        [HostEvent.addAddrs "12D3KooWA" []] (by decide) (by decide)
        (ProcessedAll.connected
          [HostEvent.addAddrs "12D3KooWA" [], HostEvent.connect "12D3KooWA" none,
            HostEvent.protect "12D3KooWA" "pinning"]
          ⟨"12D3KooWA", []⟩ []
          [HostEvent.addAddrs "12D3KooWA" [], HostEvent.connect "12D3KooWA" none,
            HostEvent.protect "12D3KooWA" "pinning", HostEvent.addAddrs "12D3KooWA" []]
          [] (by decide) (ProcessedAll.nil _)))
      (by decide) (by decide)⟩

/-! ## The semaphore bounds the fetches in flight -/

theorem countP_set_of_getElem {α : Type} (p : α → Bool) (l : List α) (i : Nat) (a b : α)
    (h : l[i]? = some a) :
    (l.set i b).countP p + (if p a then 1 else 0) = l.countP p + (if p b then 1 else 0) := by
  induction l generalizing i with
  | nil => simp at h
  | cons x xs ih =>
    cases i with
    | zero =>
      simp only [List.getElem?_cons_zero, Option.some.injEq] at h
      subst h
      simp only [List.set_cons_zero, List.countP_cons]
      omega
    | succ j =>
      simp only [List.getElem?_cons_succ] at h
      have := ih j h
      simp only [List.set_cons_succ, List.countP_cons]
      omega

theorem holding_set_eq (ws : List Worker) (i : Nat) (w b : Worker) (hw : ws[i]? = some w)
    (hb : b.holding = w.holding) :
    (ws.set i b).countP Worker.holding = ws.countP Worker.holding := by
  have := countP_set_of_getElem Worker.holding ws i w b hw
  rw [hb] at this
  omega

theorem mainStep_semInv (cl : Client) (s t : State) (h : mainStep cl s = some t)
    (hinv : SemInv s) : SemInv t ∧ t.cap = s.cap := by
  unfold mainStep at h
  split at h
  · cases h
  · split at h <;> (try split at h) <;> (try cases h) <;>
      (first | exact ⟨hinv, rfl⟩ | skip)
    all_goals
      simp_all [SemInv, inFlight, Worker.holding]

theorem deliver_same (v : Option FetchErr) (s s1 : State) (h : deliver v s = some s1) :
    s1.sem = s.sem ∧ s1.cap = s.cap := by
  unfold deliver at h
  split at h
  · cases h; exact ⟨rfl, rfl⟩
  · split at h <;> cases h <;> exact ⟨rfl, rfl⟩
  · cases h

theorem workerStep_semInv (i : Nat) (s t : State) (h : workerStep i s = some t)
    (hinv : SemInv s) : SemInv t ∧ t.cap = s.cap := by
  obtain ⟨hcount, hle⟩ := hinv
  unfold inFlight at hcount
  unfold workerStep at h
  split at h
  · cases h
  · cases hw : s.workers[i]? with
    | none => simp [hw] at h
    | some w =>
      simp only [hw] at h
      have key := fun b => countP_set_of_getElem Worker.holding s.workers i w b hw
      rcases w with ⟨pc, ops, panicking, wg⟩
      cases pc with
      | acquire =>
        simp only at h
        split at h
        · cases h
          have := key ⟨Pc.body, ops, panicking, wg⟩
          simp only [Worker.holding] at this
          refine ⟨⟨?_, ?_⟩, rfl⟩
          · simp only [inFlight]; simp at this; omega
          · simp only; omega
        · cases h
      | body =>
        simp only at h
        split at h
        · cases h; exact ⟨⟨(holding_set_eq _ _ _ _ hw (by rfl)).trans hcount, hle⟩, rfl⟩
        · cases h; exact ⟨⟨(holding_set_eq _ _ _ _ hw (by rfl)).trans hcount, hle⟩, rfl⟩
        · cases h; exact ⟨⟨(holding_set_eq _ _ _ _ hw (by rfl)).trans hcount, hle⟩, rfl⟩
        · cases h; exact ⟨⟨(holding_set_eq _ _ _ _ hw (by rfl)).trans hcount, hle⟩, rfl⟩
        · split at h
          · cases h; exact ⟨⟨(holding_set_eq _ _ _ _ hw (by rfl)).trans hcount, hle⟩, rfl⟩
          · split at h
            · cases h
            · rename_i s1 hd
              obtain ⟨h1, h2⟩ := deliver_same _ _ _ hd
              cases h
              refine ⟨⟨?_, ?_⟩, h2⟩
              · simp only [inFlight]; rw [h1]
                exact (holding_set_eq _ _ _ _ hw (by rfl)).trans hcount
              · simp only; omega
      | release =>
        simp only at h
        split at h
        · cases h
          have := key ⟨Pc.wgDone, ops, panicking, wg⟩
          simp [Worker.holding] at this
          refine ⟨⟨?_, ?_⟩, rfl⟩
          · simp only [inFlight]; omega
          · simp only; omega
        · cases h
      | wgDone =>
        simp only at h
        split at h
        · cases h
        · split at h
          · cases h; exact ⟨⟨(holding_set_eq _ _ _ _ hw (by rfl)).trans hcount, hle⟩, rfl⟩
          · split at h <;> cases h <;>
              exact ⟨⟨(holding_set_eq _ _ _ _ hw (by rfl)).trans hcount, hle⟩, rfl⟩
      | exited => cases h

theorem reachable_semInv (cl : Client) (s0 s : State) (hr : Reachable cl s0 s)
    (h0 : SemInv s0) : SemInv s ∧ s.cap = s0.cap := by
  induction hr with
  | start => exact ⟨h0, rfl⟩
  | next _ hstep ih =>
    rcases hstep with hm | ⟨i, hw⟩
    · obtain ⟨h1, h2⟩ := mainStep_semInv cl _ _ hm ih.1
      exact ⟨h1, h2.trans ih.2⟩
    · obtain ⟨h1, h2⟩ := workerStep_semInv i _ _ hw ih.1
      exact ⟨h1, h2.trans ih.2⟩

theorem mainInit_start {σ : Type} (h : Host σ) (host0 : σ) (peerInfos : List AddrInfo)
    (cidsStr : String) (numCPU : Int) (fuel : Nat) (s0 : State)
    (hinit : mainInit h host0 peerInfos cidsStr numCPU fuel = Run.done s0) :
    s0.workers = [] ∧ s0.sem = 0 ∧ (s0.cap : Int) = numCPU ∧
      ∀ o ∈ s0.out, o.isErrorFetching = false := by
  unfold mainInit at hinit
  simp only at hinit
  split at hinit
  · cases hinit
  · cases hinit
  · split at hinit
    · cases hinit
    · cases hinit
    · split at hinit
      · cases hinit
      · split at hinit
        · cases hinit
        · split at hinit
          · cases hinit
          · cases hinit
          · cases hinit
            refine ⟨rfl, rfl, ?_, ?_⟩
            · simp only; omega
            · simp [Output.isErrorFetching]

/-- With at least one CPU and fuel above the number of identifiers, `main`
reaches line 140: nothing before it panics and `splitIntoBatches` returns. -/
theorem mainInit_returns {σ : Type} (h : Host σ) (host0 : σ) (peerInfos : List AddrInfo)
    (cidsStr : String) (numCPU : Int) (fuel : Nat) (hcpu : 1 ≤ numCPU)
    (hfuel : (cidsOfText cidsStr).length < fuel) :
    ∃ s0, mainInit h host0 peerInfos cidsStr numCPU fuel = Run.done s0 := by
  have hsize := batchSizePerCPU_pos (cidsOfText cidsStr).length numCPU hcpu
  have hpos : (1 : Int) ≤ max 1 (((cidsOfText cidsStr).length : Int) / numCPU) :=
    le_max_left _ _
  obtain ⟨m, hm⟩ := Int.eq_ofNat_of_zero_le
    (by omega : 0 ≤ max 1 (((cidsOfText cidsStr).length : Int) / numCPU))
  rw [hm] at hsize hpos
  obtain ⟨batches, hrun, -⟩ := splitIntoBatches_spec (cidsOfText cidsStr) m (by omega)
  have hne : (m : Int) ≠ 0 := by omega
  have hcount : ¬ Int.tdiv ((cidsOfText cidsStr).length : Int) (m : Int) < 0 := by
    have := Int.tdiv_nonneg (a := ((cidsOfText cidsStr).length : Int)) (b := (m : Int))
      (by omega) (by omega)
    omega
  have hnc : ¬ numCPU < 0 := by omega
  simp only [mainInit, hsize, goDiv, hne, if_false, hcount, hnc, hrun fuel hfuel]
  exact ⟨_, rfl⟩

/-- C9: in every state a run can reach, under every interleaving of `main`
and the `fetchCID` goroutines, the number of fetches in flight (goroutines that
have acquired a slot of `sem` and not yet released it) is at most the
capacity of `sem`, which is `runtime.NumCPU()`. -/
theorem inFlight_le_limit {σ : Type} (h : Host σ) (host0 : σ) (peerInfos : List AddrInfo)
    (cl : Client) (cidsStr : String) (numCPU : Int) (fuel : Nat) (s0 s : State)
    (hinit : mainInit h host0 peerInfos cidsStr numCPU fuel = Run.done s0)
    (hr : Reachable cl s0 s) :
    (inFlight s : Int) ≤ numCPU ∧ inFlight s ≤ s.cap ∧ (s.cap : Int) = numCPU := by
  obtain ⟨hw, hs, hc, -⟩ := mainInit_start h host0 peerInfos cidsStr numCPU fuel s0 hinit
  have h0 : SemInv s0 := by
    refine ⟨?_, ?_⟩
    · simp [inFlight, hw, hs]
    · omega
  obtain ⟨⟨h1, h2⟩, h3⟩ := reachable_semInv cl s0 s hr h0
  refine ⟨?_, ?_, ?_⟩
  · rw [← hc, ← h3]; exact_mod_cast (h1 ▸ h2)
  · rw [h1]; exact h2
  · rw [h3]; exact hc

theorem firstWorkerStep_sound (s t : State) :
    ∀ (k i : Nat), firstWorkerStep s i k = some t → ∃ j, workerStep j s = some t := by
  intro k
  induction k with
  | zero => intro i h; simp [firstWorkerStep] at h
  | succ k ih =>
    intro i h
    simp only [firstWorkerStep] at h
    cases hw : workerStep i s with
    | some u =>
      rw [hw] at h
      exact ⟨i, by rw [hw]; exact h⟩
    | none =>
      rw [hw] at h
      exact ih (i + 1) h

theorem schedStep_sound (cl : Client) (s t : State) (h : schedStep cl s = some t) :
    Step cl s t := by
  unfold schedStep at h
  cases hf : firstWorkerStep s 0 s.workers.length with
  | some u =>
    rw [hf] at h
    simp only [Option.some.injEq] at h
    subst h
    exact Or.inr (firstWorkerStep_sound s _ _ _ hf)
  | none =>
    rw [hf] at h
    exact Or.inl h

/-- Every state the schedule of `runSched` passes through is reachable. -/
theorem reachable_runSched (cl : Client) (n : Nat) :
    ∀ s0 s : State, Reachable cl s0 s → Reachable cl s0 (runSched cl n s) := by
  induction n with
  | zero => intro s0 s h; exact h
  | succ n ih =>
    intro s0 s h
    simp only [runSched]
    cases hs : schedStep cl s with
    | none => exact h
    | some t => exact ih s0 t (Reachable.next h (schedStep_sound cl s t hs))

/-- C9 on two identifiers and two CPUs: after five steps of the schedule one
fetch is in flight, within the limit of 2. -/
theorem inFlight_le_limit_witness :
    mainInit sampleHost [] [] "bafy1\nbafy2" 2 3 = Run.done twoCidsStart ∧
    Reachable sampleClient twoCidsStart (runSched sampleClient 5 twoCidsStart) ∧
    ((inFlight (runSched sampleClient 5 twoCidsStart) : Int) ≤ 2 ∧
      inFlight (runSched sampleClient 5 twoCidsStart) ≤
        (runSched sampleClient 5 twoCidsStart).cap ∧
      ((runSched sampleClient 5 twoCidsStart).cap : Int) = 2) ∧
    inFlight (runSched sampleClient 5 twoCidsStart) = 1 :=
  ⟨by decide, reachable_runSched sampleClient 5 _ _ Reachable.start,
    inFlight_le_limit sampleHost [] [] sampleClient "bafy1\nbafy2" 2 3 twoCidsStart _
      (by decide) (reachable_runSched sampleClient 5 _ _ Reachable.start),
    by decide⟩

/-! ## The summary loop never prints -/

theorem pending_cons (op : MOp) (rest : List MOp) (h : Pending (op :: rest)) :
    op ≠ MOp.range ∧ (op ≠ MOp.close → Pending rest) := by
  obtain ⟨pre, hpre, hnot⟩ := h
  cases pre with
  | nil =>
    simp only [List.nil_append, List.cons.injEq] at hpre
    obtain ⟨rfl, -⟩ := hpre
    exact ⟨by simp, fun h => absurd rfl h⟩
  | cons x pre =>
    simp only [List.cons_append, List.cons.injEq] at hpre
    obtain ⟨rfl, rfl⟩ := hpre
    refine ⟨?_, fun _ => ⟨pre, rfl, ?_⟩⟩
    · rintro rfl; exact hnot (by simp)
    · intro hmem; exact hnot (List.mem_cons_of_mem _ hmem)

theorem fetchBody_prints (cl : Client) (cidItem : String) (o : Output)
    (h : Op.print o ∈ fetchBody cl cidItem) : o.isErrorFetching = false := by
  unfold fetchBody at h
  cases hd : cl.decode cidItem with
  | error e => simp [hd] at h
  | ok cidD =>
    simp only [hd] at h
    rcases hg : cl.get cidD with ⟨_ | ⟨size, _ | e⟩, _ | f⟩ <;> simp [hg] at h <;>
      (rcases h with rfl | rfl) <;> rfl

theorem batchScript_no_range (batch : List String) : MOp.range ∉ batchScript batch := by
  simp [batchScript]

theorem batchScript_prints (batch : List String) (o : Output)
    (h : MOp.print o ∈ batchScript batch) : o.isErrorFetching = false := by
  simp [batchScript] at h
  rcases h with rfl | rfl <;> rfl

theorem mainScript_summaryInv (batches : List (List String)) :
    Pending (mainScript batches) ∧
    ∀ o, MOp.print o ∈ mainScript batches → o.isErrorFetching = false := by
  constructor
  · refine ⟨batches.flatMap batchScript ++ [MOp.allWait], by simp [mainScript], ?_⟩
    simp only [List.mem_append, List.mem_flatMap, List.mem_singleton, not_or]
    refine ⟨?_, by simp⟩
    rintro ⟨b, -, hb⟩
    exact batchScript_no_range b hb
  · intro o ho
    simp only [mainScript, List.mem_append, List.mem_flatMap] at ho
    rcases ho with ⟨b, -, hb⟩ | ho
    · exact batchScript_prints b o hb
    · simp at ho

theorem mainStep_summaryInv (cl : Client) (s t : State) (h : mainStep cl s = some t)
    (hinv : SummaryInv s) : SummaryInv t := by
  obtain ⟨hout, hmain, hwork, hpend⟩ := hinv
  unfold mainStep at h
  split at h
  · cases h
  · cases hm : s.main with
    | nil => simp [hm] at h
    | cons op rest =>
      have hm2 : ∀ o, MOp.print o ∈ rest → o.isErrorFetching = false :=
        fun o ho => hmain o (by rw [hm]; exact List.mem_cons_of_mem _ ho)
      have hp2 : op ≠ MOp.close → s.closed = false → Pending rest := by
        intro hne hc
        have := hpend hc
        rw [hm] at this
        exact (pending_cons op rest this).2 hne
      have hnr : s.closed = false → op ≠ MOp.range := by
        intro hc
        have := hpend hc
        rw [hm] at this
        exact (pending_cons op rest this).1
      rw [hm] at h
      cases op with
      | print o =>
        cases h
        refine ⟨?_, hm2, hwork, hp2 (by simp)⟩
        intro o2 ho2
        rcases List.mem_append.1 ho2 with h1 | h1
        · exact hout o2 h1
        · rw [List.mem_singleton.1 h1]
          exact hmain o (by rw [hm]; exact List.mem_cons_self _ _)
      | wgNew n => cases h; exact ⟨hout, hm2, hwork, hp2 (by simp)⟩
      | spawn cidItem =>
        cases h
        refine ⟨hout, hm2, ?_, hp2 (by simp)⟩
        intro w hw o ho
        rcases List.mem_append.1 hw with h1 | h1
        · exact hwork w h1 o ho
        · rw [List.mem_singleton.1 h1] at ho
          exact fetchBody_prints cl cidItem o ho
      | recv =>
        simp only at h
        split at h
        · cases h; exact ⟨hout, hm2, hwork, hp2 (by simp)⟩
        · cases h
      | wgWait =>
        simp only at h
        split at h
        · cases h; exact ⟨hout, hm2, hwork, hp2 (by simp)⟩
        · cases h
      | allDone =>
        simp only at h
        split at h <;> cases h <;> exact ⟨hout, hm2, hwork, hp2 (by simp)⟩
      | allWait =>
        simp only at h
        split at h
        · cases h; exact ⟨hout, hm2, hwork, hp2 (by simp)⟩
        · cases h
      | close =>
        simp only at h
        split at h
        · rename_i hc
          cases h
          exact ⟨hout, hm2, hwork, fun hf => by simp [hc] at hf⟩
        · cases h
          exact ⟨hout, hm2, hwork, fun hf => by simp at hf⟩
      | range =>
        simp only at h
        split at h
        · rename_i hc
          cases h
          exact ⟨hout, hm2, hwork, fun hf => by simp [hc] at hf⟩
        · cases h

theorem deliver_summaryInv (v : Option FetchErr) (s s1 : State) (h : deliver v s = some s1)
    (hc : s.closed = false) (hinv : SummaryInv s) :
    s1.out = s.out ∧ s1.closed = s.closed ∧
      (∀ o, MOp.print o ∈ s1.main → o.isErrorFetching = false) ∧ Pending s1.main := by
  obtain ⟨-, hmain, -, hpend⟩ := hinv
  have hp := hpend hc
  unfold deliver at h
  cases hm : s.main with
  | nil => simp [hm] at h
  | cons op rest =>
    rw [hm] at hp h
    obtain ⟨hnr, hrest⟩ := pending_cons op rest hp
    cases op with
    | recv =>
      cases h
      exact ⟨rfl, rfl, fun o ho => hmain o (by rw [hm]; exact List.mem_cons_of_mem _ ho),
        hrest (by simp)⟩
    | range => exact absurd rfl hnr
    | print o => cases h
    | wgNew n => cases h
    | spawn c => cases h
    | wgWait => cases h
    | allDone => cases h
    | allWait => cases h
    | close => cases h

theorem mem_set_ops (ws : List Worker) (i : Nat) (w b : Worker) (hw : ws[i]? = some w)
    (hsub : ∀ o, Op.print o ∈ b.ops → Op.print o ∈ w.ops)
    (hwork : ∀ x ∈ ws, ∀ o, Op.print o ∈ x.ops → o.isErrorFetching = false) :
    ∀ x ∈ ws.set i b, ∀ o, Op.print o ∈ x.ops → o.isErrorFetching = false := by
  intro x hx o ho
  rcases List.mem_or_eq_of_mem_set hx with h1 | rfl
  · exact hwork x h1 o ho
  · exact hwork w (List.getElem?_mem hw) o (hsub o ho)

theorem workerStep_summaryInv (i : Nat) (s t : State) (h : workerStep i s = some t)
    (hinv : SummaryInv s) : SummaryInv t := by
  have hinv0 := hinv
  obtain ⟨hout, hmain, hwork, hpend⟩ := hinv
  unfold workerStep at h
  split at h
  · cases h
  · cases hw : s.workers[i]? with
    | none => simp [hw] at h
    | some w =>
      simp only [hw] at h
      have hset := fun b hsub => mem_set_ops s.workers i w b hw hsub hwork
      rcases w with ⟨pc, ops, panicking, wg⟩
      cases pc with
      | acquire =>
        simp only at h
        split at h
        · cases h; exact ⟨hout, hmain, hset _ (fun o ho => ho), hpend⟩
        · cases h
      | body =>
        simp only at h
        split at h
        · cases h; exact ⟨hout, hmain, hset _ (fun o ho => ho), hpend⟩
        · rename_i o rest
          cases h
          refine ⟨?_, hmain, hset _ (fun o ho => List.mem_cons_of_mem _ ho), hpend⟩
          intro o2 ho2
          rcases List.mem_append.1 ho2 with h1 | h1
          · exact hout o2 h1
          · rw [List.mem_singleton.1 h1]
            exact hwork _ (List.getElem?_mem hw) o (List.mem_cons_self _ _)
        · cases h; exact ⟨hout, hmain, hset _ (fun o ho => List.mem_cons_of_mem _ ho), hpend⟩
        · cases h; exact ⟨hout, hmain, hset _ (fun o ho => by simp at ho), hpend⟩
        · split at h
          · cases h; exact ⟨hout, hmain, hset _ (fun o ho => by simp at ho), hpend⟩
          · rename_i hc
            split at h
            · cases h
            · rename_i s1 hd
              obtain ⟨h1, h2, h3, h4⟩ :=
                deliver_summaryInv _ _ _ hd (by simpa using hc) hinv0
              cases h
              exact ⟨by simpa [h1] using hout, h3,
                hset _ (fun o ho => List.mem_cons_of_mem _ ho), fun _ => h4⟩
      | release =>
        simp only at h
        split at h
        · cases h; exact ⟨hout, hmain, hset _ (fun o ho => ho), hpend⟩
        · cases h
      | wgDone =>
        simp only at h
        split at h
        · cases h
        · split at h
          · cases h; exact ⟨hout, hmain, hset _ (fun o ho => ho), hpend⟩
          · split at h <;> cases h <;> exact ⟨hout, hmain, hset _ (fun o ho => ho), hpend⟩
      | exited => cases h

theorem reachable_summaryInv (cl : Client) (s0 s : State) (hr : Reachable cl s0 s)
    (h0 : SummaryInv s0) : SummaryInv s := by
  induction hr with
  | start => exact h0
  | next _ hstep ih =>
    rcases hstep with hm | ⟨i, hw⟩
    · exact mainStep_summaryInv cl _ _ hm ih
    · exact workerStep_summaryInv i _ _ hw ih

theorem mainInit_summaryInv {σ : Type} (h : Host σ) (host0 : σ) (peerInfos : List AddrInfo)
    (cidsStr : String) (numCPU : Int) (fuel : Nat) (s0 : State)
    (hinit : mainInit h host0 peerInfos cidsStr numCPU fuel = Run.done s0) :
    SummaryInv s0 := by
  unfold mainInit at hinit
  simp only at hinit
  split at hinit
  · cases hinit
  · cases hinit
  · split at hinit
    · cases hinit
    · cases hinit
    · split at hinit
      · cases hinit
      · split at hinit
        · cases hinit
        · split at hinit
          · cases hinit
          · cases hinit
          · cases hinit
            rename_i batches _
            obtain ⟨hp, hprint⟩ := mainScript_summaryInv batches
            exact ⟨by simp [Output.isErrorFetching], hprint, by simp, fun _ => hp⟩

/-- Whatever the inputs, the client and the interleaving, no state of a run
has an `"Error fetching CID"` line among its printed lines. -/
theorem summary_never_prints {σ : Type} (h : Host σ) (host0 : σ) (peerInfos : List AddrInfo)
    (cl : Client) (cidsStr : String) (numCPU : Int) (fuel : Nat) (s0 s : State)
    (hinit : mainInit h host0 peerInfos cidsStr numCPU fuel = Run.done s0)
    (hr : Reachable cl s0 s) :
    ∀ o ∈ s.out, o.isErrorFetching = false :=
  (reachable_summaryInv cl s0 s hr
    (mainInit_summaryInv h host0 peerInfos cidsStr numCPU fuel s0 hinit)).1

/-! ## Concrete runs of `fetchCID` and `main` -/

/-- Number of outcomes `fetchCID` emits, by the behaviour of the client: one
when the identifier does not decode or `Size` fails, none when `Get` returns
a nil node, two when `Get` returns a node together with an error and `Size`
succeeds, one when everything succeeds. -/
theorem fetchCID_length (cl : Client) (cidItem : String) :
    (fetchCID cl cidItem).length =
      match cl.decode cidItem with
      | Except.error _ => 1
      | Except.ok cidD =>
        match (cl.get cidD).nd with
        | none => 0
        | some sz =>
          match sz.errS with
          | some _ => 1
          | none => if (cl.get cidD).errF.isSome then 2 else 1 := by
  unfold fetchCID fetchBody
  cases hd : cl.decode cidItem with
  | error e => simp [sentValues]
  | ok cidD =>
    simp only [hd]
    rcases hg : cl.get cidD with ⟨_ | ⟨size, _ | e⟩, _ | f⟩ <;> simp [sentValues]

/-- C2 fails on the code: when `Get` fails with a node whose `Size` succeeds,
`fetchCID` sends the error and then, the `return` being missing after line
201, also `nil`, two outcomes; when `Get` fails with a nil node the call
`nd.Size()` of line 194 panics before anything is sent, zero outcomes. -/
theorem fetchCID_outcome_count :
    fetchCID sampleClient "bafy-partial" = [some FetchErr.getNil, none] ∧
    fetchCID sampleClient "bafy-missing" = [] ∧
    (fetchCID sampleClient "bafy-partial").length = 2 ∧
    (fetchCID sampleClient "bafy-missing").length = 0 := by decide

theorem splitLines_ne_nil (cs : List Char) : splitLines cs ≠ [] := by
  cases cs with
  | nil => simp [splitLines]
  | cons c cs =>
    simp only [splitLines]
    split_ifs
    · simp
    · split <;> simp

/-- Whatever the response body, the identifier list of `main` has at least
one element. -/
theorem cidsOfText_ne_nil (cidsStr : String) : cidsOfText cidsStr ≠ [] := by
  simp [cidsOfText, splitLines_ne_nil]

/-- A consequence of the second send: with one CPU and the identifier
`"bafy-partial"` in the middle of a batch of three, `main` ends up blocked in
`wg.Wait()` while the last goroutine is blocked sending, and nothing can
take a step. -/
theorem double_send_blocks_main :
    partialFetchRun.map (stuck sampleClient) = Run.done true ∧
    partialFetchRun.map State.crashed = Run.done none ∧
    partialFetchRun.map State.received = Run.done [none, some FetchErr.getNil, none] ∧
    partialFetchRun.map State.main =
      Run.done [MOp.wgWait, MOp.allDone, MOp.print Output.finishedBatch, MOp.allWait,
        MOp.close, MOp.range] ∧
    partialFetchRun.map State.wgs = Run.done [1] := by
  decide

/-- C6 fails on the code: for an empty (or all-whitespace) response body the
identifier list is `[""]`, of length one, so one batch is planned, `fetchCID`
is started for the empty identifier and one outcome, a decode failure, is
produced. -/
theorem empty_text_is_one_identifier :
    cidsOfText "" = [""] ∧ cidsOfText " \n\t " = [""] ∧
    splitIntoBatches 2 (cidsOfText "") 1 = Run.done [[""]] ∧
    emptyTextRun.map State.main = Run.done [] ∧
    emptyTextRun.map State.crashed = Run.done none ∧
    emptyTextRun.map State.fetches = Run.done [""] ∧
    emptyTextRun.map State.received = Run.done [some (FetchErr.decoding "invalid cid")] ∧
    emptyTextRun.map State.out =
      Run.done [Output.listOfCids, Output.processingBatch 1, Output.finishedBatch] := by
  decide

/-- C3 fails on the code: in the scenario of four identifiers of which
`"invalid-cid"` does not decode, the failure outcome is received and dropped
at line 154, and the run ends, `main` having returned, without any
`"Error fetching CID"` line among the printed lines. -/
theorem summary_prints_no_failure :
    decodeFailureRun.map State.main = Run.done [] ∧
    decodeFailureRun.map State.crashed = Run.done none ∧
    decodeFailureRun.map State.fetches = Run.done ["bafy1", "bafy2", "invalid-cid", "bafy3"] ∧
    decodeFailureRun.map State.received =
      Run.done [none, none, some (FetchErr.decoding "invalid cid"), none] ∧
    decodeFailureRun.map State.out =
      Run.done [Output.listOfCids, Output.processingBatch 2, Output.fetching "bafy1",
        Output.size 42, Output.fetching "bafy2", Output.size 42, Output.finishedBatch,
        Output.processingBatch 2, Output.fetching "bafy3", Output.size 42,
        Output.finishedBatch] := by
  decide

/-- C4 fails on the code: with one unreachable bootstrap peer
`ConnectToDelegates` returns the connection error, and the run nevertheless
goes on to start `fetchCID` and call `Get` for the identifier. -/
theorem bootstrap_error_not_inspected :
    (ConnectToDelegates sampleHost [] []
      [⟨"12D3KooWUnreachable", ["/ip4/10.0.0.9/tcp/4001"]⟩]).err = some "failed to dial" ∧
    unreachablePeerRun.map State.hostTrace =
      Run.done [HostEvent.addAddrs "12D3KooWUnreachable" ["/ip4/10.0.0.9/tcp/4001"],
        HostEvent.connect "12D3KooWUnreachable" (some "failed to dial")] ∧
    unreachablePeerRun.map State.fetches = Run.done ["bafy1"] ∧
    unreachablePeerRun.map State.gets = Run.done ["bafy1"] ∧
    unreachablePeerRun.map State.main = Run.done [] := by
  decide

/-- C10 fails on the code: for five identifiers on two CPUs the batch size is
2, `splitIntoBatches` returns three batches, the count registered on
`allBatchesWG` is `5 / 2 = 2`, and the `Done` of the third batch drives the
counter to -1, a panic. -/
theorem waitgroup_count_below_batches :
    batchSizePerCPU 5 2 = Run.done 2 ∧
    (splitIntoBatches 6 (cidsOfText "a\nb\nc\nd\ne") 2).map List.length = Run.done 3 ∧
    (mainInit sampleHost [] [] "a\nb\nc\nd\ne" 2 6).map State.allWG = Run.done 2 ∧
    fiveCidsRun.map State.allWG = Run.done (-1) ∧
    fiveCidsRun.map State.crashed = Run.done (some "sync: negative WaitGroup counter") ∧
    fiveCidsRun.map State.main =
      Run.done [MOp.print Output.finishedBatch, MOp.allWait, MOp.close, MOp.range] := by
  decide

end AddCids
